import Mathlib

/-!
# Verification of the enclosure detection engine

Shallow embedding of the flood-fill enclosure detector
(source file: src/systems/EnclosureDetector.ts).

Modelling conventions:
* TypeScript numbers are modelled as rationals (`ℚ`); all arithmetic the
  detector performs on them (division, `Math.floor`, `Math.ceil`,
  multiplication, halving) is exact on rationals.
* Grid coordinates produced by `Math.floor` are integers, so grid cells are
  `ℤ × ℤ`.
* The string-keyed sets (`occupiedCells`, `visited`, `reachableFromBoundary`)
  use keys of the form x-comma-y, which is injective on integer pairs, so they
  are modelled as `Finset (ℤ × ℤ)`.
* The BFS `while` loop is modelled with an explicit fuel parameter; the fuel
  actually supplied (`bfsFuel`) is proved sufficient (the loop drains its
  queue before fuel runs out), see the termination theorem for claim C8.
* The list of every cell ever pushed onto the work queue is threaded through
  the BFS as an observation (field `pushed`), used by the enqueue-at-most-once
  claim C9; it does not influence the computed result.
-/

/- The Batteries rational arithmetic is marked irreducible, which blocks
kernel evaluation of concrete scenarios; restore the default transparency so
that concrete runs of the detector can be checked by decide. -/
attribute [local semireducible] Rat.mul Rat.inv Rat.add Rat.sub

/-- The detector class: the fields fixed by the constructor
(EnclosureDetector.ts lines 13-21). -/
structure Detector where
  gridWidth : ℤ
  gridHeight : ℤ
  cellSize : ℚ
deriving DecidableEq

/-- Constructor (lines 17-21): gridWidth = ceil(gameWidth / cellSize),
gridHeight = ceil(gameHeight / cellSize). -/
def mkDetector (gameWidth gameHeight cellSize : ℚ) : Detector :=
  ⟨⌈gameWidth / cellSize⌉, ⌈gameHeight / cellSize⌉, cellSize⟩

/-- worldToGrid (lines 26-31): floor-division of each coordinate by cellSize. -/
def worldToGrid (d : Detector) (w : ℚ × ℚ) : ℤ × ℤ :=
  (⌊w.1 / d.cellSize⌋, ⌊w.2 / d.cellSize⌋)

/-- gridToWorld (lines 36-41): center of the cell. -/
def gridToWorld (d : Detector) (g : ℤ × ℤ) : ℚ × ℚ :=
  ((g.1 : ℚ) * d.cellSize + d.cellSize / 2, (g.2 : ℚ) * d.cellSize + d.cellSize / 2)

/-- isValidGridPosition (lines 46-48). -/
def isValid (d : Detector) (g : ℤ × ℤ) : Prop :=
  0 ≤ g.1 ∧ g.1 < d.gridWidth ∧ 0 ≤ g.2 ∧ g.2 < d.gridHeight

instance (d : Detector) (g : ℤ × ℤ) : Decidable (isValid d g) :=
  inferInstanceAs (Decidable (_ ∧ _ ∧ _ ∧ _))

/-- The finite set of all in-bounds grid cells. -/
def validCells (d : Detector) : Finset (ℤ × ℤ) :=
  Finset.Icc 0 (d.gridWidth - 1) ×ˢ Finset.Icc 0 (d.gridHeight - 1)

/-- A cell on the grid outer rim (row 0, last row, column 0, or last column). -/
def isRim (d : Detector) (g : ℤ × ℤ) : Prop :=
  g.1 = 0 ∨ g.1 = d.gridWidth - 1 ∨ g.2 = 0 ∨ g.2 = d.gridHeight - 1

instance (d : Detector) (g : ℤ × ℤ) : Decidable (isRim d g) :=
  inferInstanceAs (Decidable (_ ∨ _ ∨ _ ∨ _))

/-- The occupancy set (lines 63-71): map every brick with worldToGrid and
keep those whose grid coordinate is valid. -/
def occupiedSet (d : Detector) (bricks : List (ℚ × ℚ)) : Finset (ℤ × ℤ) :=
  (bricks.filterMap (fun b =>
    if isValid d (worldToGrid d b) then some (worldToGrid d b) else none)).toFinset

/-- The four scan directions, in source order: up, down, left, right
(lines 106-111). -/
def directions : List (ℤ × ℤ) := [(0, -1), (0, 1), (-1, 0), (1, 0)]

/-- Four-directional (von Neumann) adjacency, as reached by one entry of
the direction list. -/
def adjacent (c n : ℤ × ℤ) : Prop :=
  ∃ dir ∈ directions, n = (c.1 + dir.1, c.2 + dir.2)

instance (c n : ℤ × ℤ) : Decidable (adjacent c n) :=
  inferInstanceAs (Decidable (∃ dir ∈ directions, _))

/-- The ascending loop counter values of a zero-based counting loop running
while the counter is below the bound. -/
def intRange (n : ℤ) : List ℤ :=
  (List.range n.toNat).map Int.ofNat

/-- Seeds contributed by the top and bottom edges (lines 81-90): for each
column x in scan order, the cell (x, 0) if unoccupied, then the cell
(x, gridHeight - 1) if unoccupied. -/
def seedTopBottom (d : Detector) (occ : Finset (ℤ × ℤ)) : List (ℤ × ℤ) :=
  (intRange d.gridWidth).flatMap (fun x =>
    (if (x, (0 : ℤ)) ∈ occ then [] else [(x, (0 : ℤ))]) ++
    (if (x, d.gridHeight - 1) ∈ occ then [] else [(x, d.gridHeight - 1)]))

/-- Seeds contributed by the left and right edges (lines 93-102): for each
row y from 1 to gridHeight - 2 in scan order, the cell (0, y) if unoccupied,
then the cell (gridWidth - 1, y) if unoccupied. -/
def seedLeftRight (d : Detector) (occ : Finset (ℤ × ℤ)) : List (ℤ × ℤ) :=
  (intRange (d.gridHeight - 2)).flatMap (fun k =>
    (if ((0 : ℤ), k + 1) ∈ occ then [] else [((0 : ℤ), k + 1)]) ++
    (if (d.gridWidth - 1, k + 1) ∈ occ then [] else [(d.gridWidth - 1, k + 1)]))

/-- The initial FIFO work queue: every unoccupied rim cell in seeding order. -/
def seedQueue (d : Detector) (occ : Finset (ℤ × ℤ)) : List (ℤ × ℤ) :=
  seedTopBottom d occ ++ seedLeftRight d occ

/-- Working state of the flood fill: the FIFO queue, the visited set, and the
observation of every cell ever pushed onto the queue. -/
structure BfsState where
  queue : List (ℤ × ℤ)
  visited : Finset (ℤ × ℤ)
  pushed : List (ℤ × ℤ)

/-- One neighbor test of the BFS inner loop (lines 114-131): push the cell and
mark it visited unless it is out of bounds, already visited, or occupied. -/
def tryPush (d : Detector) (occ : Finset (ℤ × ℤ)) (n : ℤ × ℤ) (s : BfsState) : BfsState :=
  if isValid d n ∧ n ∉ s.visited ∧ n ∉ occ then
    ⟨s.queue ++ [n], insert n s.visited, s.pushed ++ [n]⟩
  else s

/-- The inner loop over the four directions for a dequeued cell. -/
def stepNeighbors (d : Detector) (occ : Finset (ℤ × ℤ)) (c : ℤ × ℤ) (s : BfsState) : BfsState :=
  directions.foldl (fun s dir => tryPush d occ (c.1 + dir.1, c.2 + dir.2) s) s

/-- The BFS while-loop (lines 113-133), with explicit fuel. Each iteration
shifts the head of the queue, records it as reachable, and scans its four
neighbors. The fuel case is never reached for the fuel supplied by
`bfsFuel` (proved below). Returns the reachable-from-boundary set and the
push observation list. -/
def bfsAux (d : Detector) (occ : Finset (ℤ × ℤ)) :
    ℕ → BfsState → Finset (ℤ × ℤ) → Finset (ℤ × ℤ) × List (ℤ × ℤ)
  | _, ⟨[], _, pushed⟩, reached => (reached, pushed)
  | 0, s, reached => (reached, s.pushed)
  | fuel + 1, ⟨c :: rest, visited, pushed⟩, reached =>
      bfsAux d occ fuel (stepNeighbors d occ c ⟨rest, visited, pushed⟩) (insert c reached)

/-- Initial BFS state: the seed queue, with every seeded cell already marked
visited (lines 84-101). -/
def bfsStart (d : Detector) (occ : Finset (ℤ × ℤ)) : BfsState :=
  ⟨seedQueue d occ, (seedQueue d occ).toFinset, seedQueue d occ⟩

/-- Fuel sufficient to drain the queue: every loop iteration strictly
decreases queue length plus the number of unvisited valid cells. -/
def bfsFuel (d : Detector) (occ : Finset (ℤ × ℤ)) : ℕ :=
  (seedQueue d occ).length + (validCells d).card

/-- The flood fill at a given fuel. -/
def bfsResult (d : Detector) (occ : Finset (ℤ × ℤ)) (fuel : ℕ) :
    Finset (ℤ × ℤ) × List (ℤ × ℤ) :=
  bfsAux d occ fuel (bfsStart d occ) ∅

/-- The reachable-from-boundary set at a given fuel. -/
def reachableFuel (d : Detector) (occ : Finset (ℤ × ℤ)) (fuel : ℕ) : Finset (ℤ × ℤ) :=
  (bfsResult d occ fuel).1

/-- The set `reachableFromBoundary` computed by detectEnclosures. -/
def reachableFromBoundary (d : Detector) (occ : Finset (ℤ × ℤ)) : Finset (ℤ × ℤ) :=
  reachableFuel d occ (bfsFuel d occ)

/-- The multiset of cells ever pushed onto the BFS work queue during a
detect call (rim seeding followed by BFS pushes). -/
def bfsPushLog (d : Detector) (occ : Finset (ℤ × ℤ)) : List (ℤ × ℤ) :=
  (bfsResult d occ (bfsFuel d occ)).2

/-- All grid cells in row-major enumeration order (lines 138-139: y outer,
x inner). -/
def rowMajorCells (d : Detector) : List (ℤ × ℤ) :=
  (intRange d.gridHeight).flatMap (fun y =>
    (intRange d.gridWidth).map (fun x => (x, y)))

/-- The enclosed cells in grid coordinates (lines 136-148): row-major cells
that are neither occupied nor reachable from the boundary. -/
def enclosedGridCells (d : Detector) (occ reach : Finset (ℤ × ℤ)) : List (ℤ × ℤ) :=
  (rowMajorCells d).filter (fun c => decide (c ∉ occ ∧ c ∉ reach))

/-- The enclosed cells converted to world coordinates (line 144-145). -/
def enclosedWorldCells (d : Detector) (occ reach : Finset (ℤ × ℤ)) : List (ℚ × ℚ) :=
  (enclosedGridCells d occ reach).map (gridToWorld d)

/-- The per-brick boundary test (lines 158-169): some direction leads to a
valid, unoccupied, non-reachable cell. The source `break` after the first
matching direction makes the brick contribute at most one entry. -/
def isBoundaryBrick (d : Detector) (occ reach : Finset (ℤ × ℤ)) (b : ℚ × ℚ) : Bool :=
  directions.any (fun dir =>
    decide (isValid d ((worldToGrid d b).1 + dir.1, (worldToGrid d b).2 + dir.2) ∧
      ((worldToGrid d b).1 + dir.1, (worldToGrid d b).2 + dir.2) ∉ occ ∧
      ((worldToGrid d b).1 + dir.1, (worldToGrid d b).2 + dir.2) ∉ reach))

/-- The enclosure boundary list (lines 151-172): only computed when at least
one enclosed cell exists; scans the original brick list in order. -/
def boundaryList (d : Detector) (occ reach : Finset (ℤ × ℤ)) (bricks : List (ℚ × ℚ)) :
    List (ℚ × ℚ) :=
  if 0 < (enclosedWorldCells d occ reach).length then
    bricks.filter (isBoundaryBrick d occ reach)
  else []

/-- The result record returned by detectEnclosures (lines 6-10, 174-178). -/
structure EnclosureResult where
  hasEnclosure : Bool
  enclosedCells : List (ℚ × ℚ)
  enclosureBoundary : List (ℚ × ℚ)
deriving DecidableEq

/-- detectEnclosures (lines 61-179) with an explicit BFS fuel parameter. -/
def detectCore (d : Detector) (bricks : List (ℚ × ℚ)) (fuel : ℕ) : EnclosureResult :=
  ⟨decide (0 < (enclosedWorldCells d (occupiedSet d bricks)
      (reachableFuel d (occupiedSet d bricks) fuel)).length),
   enclosedWorldCells d (occupiedSet d bricks)
      (reachableFuel d (occupiedSet d bricks) fuel),
   boundaryList d (occupiedSet d bricks)
      (reachableFuel d (occupiedSet d bricks) fuel) bricks⟩

/-- detectEnclosures, run at the sufficient fuel. -/
def detectEnclosures (d : Detector) (bricks : List (ℚ × ℚ)) : EnclosureResult :=
  detectCore d bricks (bfsFuel d (occupiedSet d bricks))

/-- Reachability as the specification states it: an unoccupied in-bounds cell
reachable from an unoccupied in-bounds rim cell via 4-directional adjacency
without crossing an occupied cell. Used as the comparison point for the
refinement claim C1; the source computes this set by flood fill. -/
inductive SpecRimReachable (d : Detector) (occ : Finset (ℤ × ℤ)) : ℤ × ℤ → Prop
  | rim (c : ℤ × ℤ) (hv : isValid d c) (hr : isRim d c) (ho : c ∉ occ) :
      SpecRimReachable d occ c
  | step (c n : ℤ × ℤ) (hc : SpecRimReachable d occ c) (hadj : adjacent c n)
      (hv : isValid d n) (ho : n ∉ occ) : SpecRimReachable d occ n

/-- The neighbor scan generalized to an arbitrary direction list, for
induction. -/
def neighborsFold (d : Detector) (occ : Finset (ℤ × ℤ)) (c : ℤ × ℤ)
    (ds : List (ℤ × ℤ)) (s : BfsState) : BfsState :=
  ds.foldl (fun s dir => tryPush d occ (c.1 + dir.1, c.2 + dir.2) s) s

/-- Queue length plus the number of unvisited valid cells: strictly decreases
at every loop iteration. -/
def bfsMeasure (d : Detector) (s : BfsState) : ℕ :=
  s.queue.length + (validCells d \ s.visited).card

/-! ## Concrete detectors and obstacle lists for the scenarios -/

/-- A 3 x 3 grid detector (field 6 x 6, cellSize 2). -/
def dRing : Detector := mkDetector 6 6 2

/-- A complete obstacle ring: the eight rim cells of the 3 x 3 grid, given by
their centers. The center cell (1, 1) is the single enclosed cell. -/
def ringBricks : List (ℚ × ℚ) :=
  [(1, 1), (3, 1), (5, 1), (1, 3), (5, 3), (1, 5), (3, 5), (5, 5)]

/-- The ring plus a ninth obstacle at (3, 1/2), a second position inside grid
cell (1, 0). -/
def ringBricks9 : List (ℚ × ℚ) := ringBricks ++ [(3, 1/2)]

/-- A degenerate detector with gridWidth 0 and gridHeight 3. -/
def dZero : Detector := mkDetector 0 96 32

/-- A degenerate single-row detector: 2 x 1 grid. -/
def dRow : Detector := mkDetector 64 32 32

/-- A thin detector: 2 x 5 grid. -/
def dThin : Detector := mkDetector 64 160 32

/-- A detector over a field of width 5/2 with cellSize 1: the grid is 3 x 3
and its last column extends beyond the field. -/
def dFrac : Detector := mkDetector (5/2) 3 1

/-- Three obstacles at cells (1,0), (0,1), (1,2) of the 3 x 3 grid of dFrac:
three quarters of a ring around cell (1,1). -/
def fracBricks : List (ℚ × ℚ) := [(3/2, 1/2), (1/2, 3/2), (3/2, 5/2)]

/-- The obstacle closing that ring from cell (2,1), at a position whose x
coordinate 13/5 lies beyond the field width 5/2. -/
def outsideBrick : ℚ × ℚ := (13/5, 3/2)

example :
    detectEnclosures (mkDetector 6 6 2)
      [(1, 1), (3, 1), (5, 1), (1, 3), (5, 3), (1, 5), (3, 5), (5, 5)] =
    ⟨true, [(3, 3)], [(3, 1), (1, 3), (5, 3), (3, 5)]⟩ := by decide

/-! ## Basic membership lemmas -/

lemma detectEnclosures_def (d : Detector) (bricks : List (ℚ × ℚ)) :
    detectEnclosures d bricks =
      ⟨decide (0 < (enclosedWorldCells d (occupiedSet d bricks)
          (reachableFromBoundary d (occupiedSet d bricks))).length),
       enclosedWorldCells d (occupiedSet d bricks)
          (reachableFromBoundary d (occupiedSet d bricks)),
       boundaryList d (occupiedSet d bricks)
          (reachableFromBoundary d (occupiedSet d bricks)) bricks⟩ := rfl

lemma mem_validCells {d : Detector} {c : ℤ × ℤ} : c ∈ validCells d ↔ isValid d c := by
  obtain ⟨x, y⟩ := c
  unfold validCells isValid
  rw [Finset.mem_product, Finset.mem_Icc, Finset.mem_Icc]
  omega

lemma mem_intRange {n x : ℤ} : x ∈ intRange n ↔ 0 ≤ x ∧ x < n := by
  unfold intRange
  rw [List.mem_map]
  constructor
  · rintro ⟨k, hk, rfl⟩
    rw [List.mem_range] at hk
    simp only [Int.ofNat_eq_natCast]
    omega
  · rintro ⟨h1, h2⟩
    refine ⟨x.toNat, List.mem_range.2 (by omega), ?_⟩
    simp only [Int.ofNat_eq_natCast]
    omega

lemma mem_rowMajorCells {d : Detector} {c : ℤ × ℤ} : c ∈ rowMajorCells d ↔ isValid d c := by
  obtain ⟨x, y⟩ := c
  unfold rowMajorCells isValid
  rw [List.mem_flatMap]
  constructor
  · rintro ⟨y0, hy0, hx⟩
    rw [mem_intRange] at hy0
    obtain ⟨x0, hx0, heq⟩ := List.mem_map.1 hx
    rw [mem_intRange] at hx0
    rw [Prod.ext_iff] at heq
    obtain ⟨h1, h2⟩ := heq
    simp only at h1 h2
    refine ⟨by omega, by omega, by omega, by omega⟩
  · rintro ⟨h1, h2, h3, h4⟩
    exact ⟨y, mem_intRange.2 ⟨h3, h4⟩, List.mem_map.2 ⟨x, mem_intRange.2 ⟨h1, h2⟩, rfl⟩⟩

lemma mem_occupiedSet {d : Detector} {bricks : List (ℚ × ℚ)} {c : ℤ × ℤ} :
    c ∈ occupiedSet d bricks ↔ isValid d c ∧ ∃ b ∈ bricks, worldToGrid d b = c := by
  unfold occupiedSet
  rw [List.mem_toFinset, List.mem_filterMap]
  constructor
  · rintro ⟨b, hb, h⟩
    by_cases hv : isValid d (worldToGrid d b)
    · rw [if_pos hv] at h
      obtain rfl := Option.some.inj h
      exact ⟨hv, b, hb, rfl⟩
    · rw [if_neg hv] at h
      cases h
  · rintro ⟨hv, b, hb, rfl⟩
    exact ⟨b, hb, by rw [if_pos hv]⟩

lemma occupiedSet_subset_valid {d : Detector} {bricks : List (ℚ × ℚ)} {c : ℤ × ℤ}
    (h : c ∈ occupiedSet d bricks) : isValid d c :=
  (mem_occupiedSet.1 h).1

lemma occupiedSet_mono {d : Detector} {S1 S2 : List (ℚ × ℚ)}
    (hsub : ∀ b ∈ S1, b ∈ S2) : occupiedSet d S1 ⊆ occupiedSet d S2 := by
  intro c hc
  obtain ⟨hv, b, hb, rfl⟩ := mem_occupiedSet.1 hc
  exact mem_occupiedSet.2 ⟨hv, b, hsub b hb, rfl⟩

/-! ## Seed queue lemmas -/

lemma seedTopBottom_spec {d : Detector} {occ : Finset (ℤ × ℤ)} {c : ℤ × ℤ}
    (h : c ∈ seedTopBottom d occ) :
    c ∉ occ ∧ (c.2 = 0 ∨ c.2 = d.gridHeight - 1) ∧ 0 ≤ c.1 ∧ c.1 < d.gridWidth := by
  unfold seedTopBottom at h
  simp only [List.mem_flatMap, mem_intRange, List.mem_append] at h
  obtain ⟨x, hx, h⟩ := h
  rcases h with h | h <;> split_ifs at h with ho <;>
    simp only [List.mem_singleton, List.not_mem_nil] at h
  · subst h
    exact ⟨ho, Or.inl rfl, hx.1, hx.2⟩
  · subst h
    exact ⟨ho, Or.inr rfl, hx.1, hx.2⟩

lemma seedLeftRight_spec {d : Detector} {occ : Finset (ℤ × ℤ)} {c : ℤ × ℤ}
    (h : c ∈ seedLeftRight d occ) :
    c ∉ occ ∧ (c.1 = 0 ∨ c.1 = d.gridWidth - 1) ∧ 1 ≤ c.2 ∧ c.2 ≤ d.gridHeight - 2 := by
  unfold seedLeftRight at h
  simp only [List.mem_flatMap, mem_intRange, List.mem_append] at h
  obtain ⟨k, hk, h⟩ := h
  rcases h with h | h <;> split_ifs at h with ho <;>
    simp only [List.mem_singleton, List.not_mem_nil] at h
  · subst h
    exact ⟨ho, Or.inl rfl, by omega, by omega⟩
  · subst h
    exact ⟨ho, Or.inr rfl, by omega, by omega⟩

lemma seedQueue_not_occ {d : Detector} {occ : Finset (ℤ × ℤ)} {c : ℤ × ℤ}
    (h : c ∈ seedQueue d occ) : c ∉ occ := by
  rcases List.mem_append.1 h with h | h
  · exact (seedTopBottom_spec h).1
  · exact (seedLeftRight_spec h).1

lemma seedQueue_rim {d : Detector} {occ : Finset (ℤ × ℤ)} {c : ℤ × ℤ}
    (h : c ∈ seedQueue d occ) : isRim d c := by
  rcases List.mem_append.1 h with h | h
  · rcases (seedTopBottom_spec h).2.1 with h2 | h2
    · exact Or.inr (Or.inr (Or.inl h2))
    · exact Or.inr (Or.inr (Or.inr h2))
  · rcases (seedLeftRight_spec h).2.1 with h2 | h2
    · exact Or.inl h2
    · exact Or.inr (Or.inl h2)

lemma seedQueue_valid {d : Detector} {occ : Finset (ℤ × ℤ)} {c : ℤ × ℤ}
    (h1 : 1 ≤ d.gridWidth) (h2 : 1 ≤ d.gridHeight) (h : c ∈ seedQueue d occ) :
    isValid d c := by
  unfold isValid
  rcases List.mem_append.1 h with h | h
  · obtain ⟨-, hy, hx⟩ := seedTopBottom_spec h
    omega
  · obtain ⟨-, hx, hy⟩ := seedLeftRight_spec h
    omega

lemma mem_seedQueue_of_rim {d : Detector} {occ : Finset (ℤ × ℤ)} {c : ℤ × ℤ}
    (hv : isValid d c) (hr : isRim d c) (ho : c ∉ occ) : c ∈ seedQueue d occ := by
  obtain ⟨x, y⟩ := c
  obtain ⟨hx0, hxw, hy0, hyh⟩ := hv
  rw [seedQueue, List.mem_append]
  by_cases hy : y = 0 ∨ y = d.gridHeight - 1
  · left
    unfold seedTopBottom
    simp only [List.mem_flatMap, mem_intRange, List.mem_append]
    refine ⟨x, ⟨hx0, hxw⟩, ?_⟩
    rcases hy with rfl | rfl
    · left
      rw [if_neg ho]
      exact List.mem_singleton.2 rfl
    · right
      rw [if_neg ho]
      exact List.mem_singleton.2 rfl
  · right
    push_neg at hy
    have hx : x = 0 ∨ x = d.gridWidth - 1 := by
      rcases hr with h | h | h | h <;> simp only at h <;> omega
    unfold seedLeftRight
    simp only [List.mem_flatMap, mem_intRange, List.mem_append]
    refine ⟨y - 1, by omega, ?_⟩
    have hy1 : y - 1 + 1 = y := by omega
    rcases hx with rfl | rfl
    · left
      rw [hy1, if_neg ho]
      exact List.mem_singleton.2 rfl
    · right
      rw [hy1, if_neg ho]
      exact List.mem_singleton.2 rfl

/-! ## Adjacency lemmas -/

lemma adjacent_of_dir {c : ℤ × ℤ} {dir : ℤ × ℤ} (h : dir ∈ directions) :
    adjacent c (c.1 + dir.1, c.2 + dir.2) :=
  ⟨dir, h, rfl⟩

lemma isRim_of_adjacent_invalid {d : Detector} {c n : ℤ × ℤ} (hadj : adjacent c n)
    (hn : isValid d n) (hc : ¬ isValid d c) : isRim d n := by
  obtain ⟨dir, hdir, rfl⟩ := hadj
  obtain ⟨cx, cy⟩ := c
  unfold directions at hdir
  unfold isValid at hn hc
  unfold isRim
  simp only [List.mem_cons, List.not_mem_nil, or_false] at hdir
  push_neg at hc
  rcases hdir with rfl | rfl | rfl | rfl <;> simp only at hn hc ⊢ <;> omega

/-! ## The inner neighbor scan: fold specification -/

lemma stepNeighbors_eq_fold (d : Detector) (occ : Finset (ℤ × ℤ)) (c : ℤ × ℤ)
    (s : BfsState) : stepNeighbors d occ c s = neighborsFold d occ c directions s := rfl

lemma neighborsFold_spec (d : Detector) (occ : Finset (ℤ × ℤ)) (c : ℤ × ℤ) :
    ∀ (ds : List (ℤ × ℤ)) (s : BfsState),
      ∃ p : List (ℤ × ℤ),
        (neighborsFold d occ c ds s).queue = s.queue ++ p ∧
        (neighborsFold d occ c ds s).pushed = s.pushed ++ p ∧
        (neighborsFold d occ c ds s).visited = s.visited ∪ p.toFinset ∧
        p.Nodup ∧
        (∀ n ∈ p, isValid d n ∧ n ∉ occ ∧ n ∉ s.visited ∧
          ∃ dir ∈ ds, n = (c.1 + dir.1, c.2 + dir.2)) ∧
        (∀ dir ∈ ds, isValid d (c.1 + dir.1, c.2 + dir.2) →
          (c.1 + dir.1, c.2 + dir.2) ∉ occ →
          (c.1 + dir.1, c.2 + dir.2) ∈ (neighborsFold d occ c ds s).visited) := by
  intro ds
  induction ds with
  | nil =>
      intro s
      refine ⟨[], by simp [neighborsFold], by simp [neighborsFold],
        by simp [neighborsFold], List.nodup_nil, ?_, ?_⟩
      · intro n hn
        cases hn
      · intro dir hdir
        cases hdir
  | cons dir ds ih =>
      intro s
      have hfold : neighborsFold d occ c (dir :: ds) s =
          neighborsFold d occ c ds (tryPush d occ (c.1 + dir.1, c.2 + dir.2) s) := rfl
      obtain ⟨p1, hq, hp, hv, hnd, hmem, hvis⟩ :=
        ih (tryPush d occ (c.1 + dir.1, c.2 + dir.2) s)
      by_cases hcond : isValid d (c.1 + dir.1, c.2 + dir.2) ∧
          (c.1 + dir.1, c.2 + dir.2) ∉ s.visited ∧ (c.1 + dir.1, c.2 + dir.2) ∉ occ
      · have hq1 : (tryPush d occ (c.1 + dir.1, c.2 + dir.2) s).queue =
            s.queue ++ [(c.1 + dir.1, c.2 + dir.2)] := by
          unfold tryPush
          rw [if_pos hcond]
        have hv1 : (tryPush d occ (c.1 + dir.1, c.2 + dir.2) s).visited =
            insert (c.1 + dir.1, c.2 + dir.2) s.visited := by
          unfold tryPush
          rw [if_pos hcond]
        have hp1 : (tryPush d occ (c.1 + dir.1, c.2 + dir.2) s).pushed =
            s.pushed ++ [(c.1 + dir.1, c.2 + dir.2)] := by
          unfold tryPush
          rw [if_pos hcond]
        rw [hv1] at hmem
        refine ⟨(c.1 + dir.1, c.2 + dir.2) :: p1, ?_, ?_, ?_, ?_, ?_, ?_⟩
        · rw [hfold, hq, hq1]
          simp only [List.append_assoc, List.singleton_append]
        · rw [hfold, hp, hp1]
          simp only [List.append_assoc, List.singleton_append]
        · rw [hfold, hv, hv1, List.toFinset_cons, Finset.insert_union, Finset.union_insert]
        · rw [List.nodup_cons]
          refine ⟨fun hin => ?_, hnd⟩
          obtain ⟨-, -, hnv, -⟩ := hmem _ hin
          exact hnv (Finset.mem_insert_self _ _)
        · intro n hn
          rcases List.mem_cons.1 hn with rfl | hn
          · exact ⟨hcond.1, hcond.2.2, hcond.2.1, dir, List.mem_cons_self _ _, rfl⟩
          · obtain ⟨h1, h2, h3, dir2, hdir2, h4⟩ := hmem n hn
            exact ⟨h1, h2, fun hv2 => h3 (Finset.mem_insert_of_mem hv2),
              dir2, List.mem_cons_of_mem _ hdir2, h4⟩
        · intro dir2 hdir2 hval hocc
          rcases List.mem_cons.1 hdir2 with rfl | hdir2
          · rw [hfold, hv, hv1]
            exact Finset.mem_union_left _ (Finset.mem_insert_self _ _)
          · rw [hfold]
            exact hvis dir2 hdir2 hval hocc
      · have htry : tryPush d occ (c.1 + dir.1, c.2 + dir.2) s = s := by
          unfold tryPush
          rw [if_neg hcond]
        rw [htry] at hq hp hv hmem hvis
        refine ⟨p1, ?_, ?_, ?_, hnd, ?_, ?_⟩
        · rw [hfold, htry]
          exact hq
        · rw [hfold, htry]
          exact hp
        · rw [hfold, htry]
          exact hv
        · intro n hn
          obtain ⟨h1, h2, h3, dir2, hdir2, h4⟩ := hmem n hn
          exact ⟨h1, h2, h3, dir2, List.mem_cons_of_mem _ hdir2, h4⟩
        · intro dir2 hdir2 hval hocc
          rcases List.mem_cons.1 hdir2 with rfl | hdir2
          · have hin : (c.1 + dir2.1, c.2 + dir2.2) ∈ s.visited := by
              by_contra hnin
              exact hcond ⟨hval, hnin, hocc⟩
            rw [hfold, htry, hv]
            exact Finset.mem_union_left _ hin
          · rw [hfold, htry]
            exact hvis dir2 hdir2 hval hocc

/-! ## BFS loop lemmas -/

lemma stepNeighbors_measure (d : Detector) (occ : Finset (ℤ × ℤ)) (c : ℤ × ℤ)
    (rest : List (ℤ × ℤ)) (v : Finset (ℤ × ℤ)) (l : List (ℤ × ℤ)) :
    bfsMeasure d (stepNeighbors d occ c ⟨rest, v, l⟩) ≤
      rest.length + (validCells d \ v).card := by
  rw [stepNeighbors_eq_fold]
  obtain ⟨p, hq, -, hv, hnd, hmem, -⟩ := neighborsFold_spec d occ c directions ⟨rest, v, l⟩
  unfold bfsMeasure
  rw [hq, hv]
  dsimp only
  have hsub : p.toFinset ⊆ validCells d \ v := by
    intro x hx
    rw [List.mem_toFinset] at hx
    obtain ⟨hval, -, hvis, -⟩ := hmem x hx
    exact Finset.mem_sdiff.2 ⟨mem_validCells.2 hval, hvis⟩
  have hsd : validCells d \ (v ∪ p.toFinset) = (validCells d \ v) \ p.toFinset := by
    ext x
    simp only [Finset.mem_sdiff, Finset.mem_union]
    tauto
  have hcard := Finset.card_sdiff_add_card_eq_card hsub
  have hlen : p.toFinset.card = p.length := List.toFinset_card_of_nodup hnd
  rw [hsd, List.length_append]
  omega

lemma bfsAux_nil (d : Detector) (occ : Finset (ℤ × ℤ)) (fuel : ℕ)
    (v : Finset (ℤ × ℤ)) (l : List (ℤ × ℤ)) (reached : Finset (ℤ × ℤ)) :
    bfsAux d occ fuel ⟨[], v, l⟩ reached = (reached, l) := by
  cases fuel <;> rfl

lemma bfsAux_zero (d : Detector) (occ : Finset (ℤ × ℤ)) (s : BfsState)
    (reached : Finset (ℤ × ℤ)) :
    bfsAux d occ 0 s reached = (reached, s.pushed) := by
  obtain ⟨q, v, l⟩ := s
  cases q <;> rfl

lemma bfsAux_cons (d : Detector) (occ : Finset (ℤ × ℤ)) (fuel : ℕ) (c : ℤ × ℤ)
    (rest : List (ℤ × ℤ)) (v : Finset (ℤ × ℤ)) (l : List (ℤ × ℤ))
    (reached : Finset (ℤ × ℤ)) :
    bfsAux d occ (fuel + 1) ⟨c :: rest, v, l⟩ reached =
      bfsAux d occ fuel (stepNeighbors d occ c ⟨rest, v, l⟩) (insert c reached) := rfl

lemma bfsAux_stable (d : Detector) (occ : Finset (ℤ × ℤ)) :
    ∀ (fuel : ℕ) (s : BfsState) (reached : Finset (ℤ × ℤ)),
      bfsMeasure d s ≤ fuel →
      bfsAux d occ (fuel + 1) s reached = bfsAux d occ fuel s reached := by
  intro fuel
  induction fuel with
  | zero =>
      rintro ⟨q, v, l⟩ reached h
      cases q with
      | nil => rw [bfsAux_nil, bfsAux_nil]
      | cons c rest =>
          exfalso
          unfold bfsMeasure at h
          simp only [List.length_cons] at h
          omega
  | succ fuel ih =>
      rintro ⟨q, v, l⟩ reached h
      cases q with
      | nil => rw [bfsAux_nil, bfsAux_nil]
      | cons c rest =>
          rw [bfsAux_cons, bfsAux_cons]
          apply ih
          have hstep := stepNeighbors_measure d occ c rest v l
          unfold bfsMeasure at h
          simp only [List.length_cons] at h
          omega

lemma bfsAux_inv (d : Detector) (occ : Finset (ℤ × ℤ)) (P : ℤ × ℤ → Prop)
    (hstep : ∀ c n, P c → isValid d n → n ∉ occ → adjacent c n → P n) :
    ∀ (fuel : ℕ) (s : BfsState) (reached : Finset (ℤ × ℤ)),
      (∀ x ∈ s.queue, P x) → (∀ x ∈ reached, P x) →
      ∀ x ∈ (bfsAux d occ fuel s reached).1, P x := by
  intro fuel
  induction fuel with
  | zero =>
      rintro ⟨q, v, l⟩ reached hq hr x hx
      rw [bfsAux_zero] at hx
      exact hr x hx
  | succ fuel ih =>
      rintro ⟨q, v, l⟩ reached hq hr x hx
      cases q with
      | nil =>
          rw [bfsAux_nil] at hx
          exact hr x hx
      | cons c rest =>
          rw [bfsAux_cons] at hx
          obtain ⟨p, hqe, -, -, -, hmem, -⟩ :=
            neighborsFold_spec d occ c directions ⟨rest, v, l⟩
          refine ih _ _ ?_ ?_ x hx
          · rw [stepNeighbors_eq_fold, hqe]
            intro y hy
            rcases List.mem_append.1 hy with hy | hy
            · exact hq y (List.mem_cons_of_mem _ hy)
            · obtain ⟨hval, hocc, -, dir, hdir, rfl⟩ := hmem y hy
              exact hstep c _ (hq c (List.mem_cons_self _ _)) hval hocc
                (adjacent_of_dir hdir)
          · intro y hy
            rcases Finset.mem_insert.1 hy with rfl | hy
            · exact hq y (List.mem_cons_self _ _)
            · exact hr y hy

lemma bfsAux_run (d : Detector) (occ : Finset (ℤ × ℤ)) :
    ∀ (fuel : ℕ) (s : BfsState) (reached : Finset (ℤ × ℤ)),
      bfsMeasure d s ≤ fuel →
      (∀ x ∈ reached, ∀ dir ∈ directions,
        isValid d (x.1 + dir.1, x.2 + dir.2) → (x.1 + dir.1, x.2 + dir.2) ∉ occ →
        (x.1 + dir.1, x.2 + dir.2) ∈ s.visited) →
      (∀ x ∈ s.visited, x ∈ reached ∨ x ∈ s.queue) →
      (∀ x ∈ s.queue, x ∈ (bfsAux d occ fuel s reached).1) ∧
      (∀ x ∈ reached, x ∈ (bfsAux d occ fuel s reached).1) ∧
      (∀ x ∈ (bfsAux d occ fuel s reached).1, ∀ dir ∈ directions,
        isValid d (x.1 + dir.1, x.2 + dir.2) → (x.1 + dir.1, x.2 + dir.2) ∉ occ →
        (x.1 + dir.1, x.2 + dir.2) ∈ (bfsAux d occ fuel s reached).1) := by
  intro fuel
  induction fuel with
  | zero =>
      rintro ⟨q, v, l⟩ reached hm hclosed hvis
      cases q with
      | nil =>
          rw [bfsAux_nil]
          refine ⟨fun x hx => absurd hx (List.not_mem_nil x), fun x hx => hx, ?_⟩
          intro x hx dir hdir hval hocc
          rcases hvis _ (hclosed x hx dir hdir hval hocc) with h | h
          · exact h
          · exact absurd h (List.not_mem_nil _)
      | cons c rest =>
          exfalso
          unfold bfsMeasure at hm
          simp only [List.length_cons] at hm
          omega
  | succ fuel ih =>
      rintro ⟨q, v, l⟩ reached hm hclosed hvis
      cases q with
      | nil =>
          rw [bfsAux_nil]
          refine ⟨fun x hx => absurd hx (List.not_mem_nil x), fun x hx => hx, ?_⟩
          intro x hx dir hdir hval hocc
          rcases hvis _ (hclosed x hx dir hdir hval hocc) with h | h
          · exact h
          · exact absurd h (List.not_mem_nil _)
      | cons c rest =>
          rw [bfsAux_cons]
          obtain ⟨p, hqe, -, hve, -, hmem, hnbr⟩ :=
            neighborsFold_spec d occ c directions ⟨rest, v, l⟩
          have hm2 : bfsMeasure d (stepNeighbors d occ c ⟨rest, v, l⟩) ≤ fuel := by
            have hstep := stepNeighbors_measure d occ c rest v l
            unfold bfsMeasure at hm
            simp only [List.length_cons] at hm
            omega
          have hclosed2 : ∀ x ∈ insert c reached, ∀ dir ∈ directions,
              isValid d (x.1 + dir.1, x.2 + dir.2) →
              (x.1 + dir.1, x.2 + dir.2) ∉ occ →
              (x.1 + dir.1, x.2 + dir.2) ∈ (stepNeighbors d occ c ⟨rest, v, l⟩).visited := by
            intro x hx dir hdir hval hocc
            rcases Finset.mem_insert.1 hx with rfl | hx
            · rw [stepNeighbors_eq_fold]
              exact hnbr dir hdir hval hocc
            · rw [stepNeighbors_eq_fold, hve]
              exact Finset.mem_union_left _ (hclosed x hx dir hdir hval hocc)
          have hvis2 : ∀ x ∈ (stepNeighbors d occ c ⟨rest, v, l⟩).visited,
              x ∈ insert c reached ∨ x ∈ (stepNeighbors d occ c ⟨rest, v, l⟩).queue := by
            intro x hx
            rw [stepNeighbors_eq_fold, hve] at hx
            rw [stepNeighbors_eq_fold, hqe]
            rcases Finset.mem_union.1 hx with hx | hx
            · rcases hvis x hx with hx2 | hx2
              · exact Or.inl (Finset.mem_insert_of_mem hx2)
              · rcases List.mem_cons.1 hx2 with rfl | hx3
                · exact Or.inl (Finset.mem_insert_self _ _)
                · exact Or.inr (List.mem_append_left _ hx3)
            · exact Or.inr (List.mem_append_right _ (List.mem_toFinset.1 hx))
          obtain ⟨ih1, ih2, ih3⟩ := ih _ (insert c reached) hm2 hclosed2 hvis2
          refine ⟨?_, ?_, ih3⟩
          · intro x hx
            rcases List.mem_cons.1 hx with rfl | hx
            · exact ih2 x (Finset.mem_insert_self _ _)
            · apply ih1
              rw [stepNeighbors_eq_fold, hqe]
              exact List.mem_append_left _ hx
          · intro x hx
            exact ih2 x (Finset.mem_insert_of_mem hx)

lemma bfsAux_nodup (d : Detector) (occ : Finset (ℤ × ℤ)) :
    ∀ (fuel : ℕ) (s : BfsState) (reached : Finset (ℤ × ℤ)),
      s.pushed.Nodup → s.visited = s.pushed.toFinset →
      (bfsAux d occ fuel s reached).2.Nodup := by
  intro fuel
  induction fuel with
  | zero =>
      rintro ⟨q, v, l⟩ reached hnd hv
      rw [bfsAux_zero]
      exact hnd
  | succ fuel ih =>
      rintro ⟨q, v, l⟩ reached hnd hv
      dsimp only at hnd hv
      cases q with
      | nil =>
          rw [bfsAux_nil]
          exact hnd
      | cons c rest =>
          rw [bfsAux_cons]
          obtain ⟨p, -, hpe, hve, hpnd, hmem, -⟩ :=
            neighborsFold_spec d occ c directions ⟨rest, v, l⟩
          dsimp only at hpe hve hmem
          refine ih _ _ ?_ ?_
          · rw [stepNeighbors_eq_fold, hpe]
            refine List.Nodup.append hnd hpnd ?_
            intro x hx hxp
            obtain ⟨-, -, hvx, -⟩ := hmem x hxp
            apply hvx
            rw [hv]
            exact List.mem_toFinset.2 hx
          · rw [stepNeighbors_eq_fold, hpe, hve, List.toFinset_append, hv]

/-! ## Reachability characterization -/

lemma bfsStart_measure (d : Detector) (occ : Finset (ℤ × ℤ)) :
    bfsMeasure d (bfsStart d occ) ≤ bfsFuel d occ := by
  unfold bfsMeasure bfsStart bfsFuel
  dsimp only
  have h := Finset.card_le_card (Finset.sdiff_subset
    (s := validCells d) (t := (seedQueue d occ).toFinset))
  omega

lemma reachable_not_occ {d : Detector} {occ : Finset (ℤ × ℤ)} {c : ℤ × ℤ}
    (h : c ∈ reachableFromBoundary d occ) : c ∉ occ :=
  bfsAux_inv d occ (fun x => x ∉ occ)
    (fun _ _ _ _ hocc _ => hocc) (bfsFuel d occ) (bfsStart d occ) ∅
    (fun _ hx => seedQueue_not_occ hx)
    (fun x hx => absurd hx (Finset.not_mem_empty x)) c h

lemma spec_of_reachable {d : Detector} {occ : Finset (ℤ × ℤ)} {c : ℤ × ℤ}
    (h : c ∈ reachableFromBoundary d occ) (hv : isValid d c) :
    SpecRimReachable d occ c := by
  refine bfsAux_inv d occ (fun x => isValid d x → SpecRimReachable d occ x) ?_
    (bfsFuel d occ) (bfsStart d occ) ∅ ?_ ?_ c h hv
  · intro a n ha hval hocc hadj _
    by_cases hva : isValid d a
    · exact SpecRimReachable.step a n (ha hva) hadj hval hocc
    · exact SpecRimReachable.rim n hval (isRim_of_adjacent_invalid hadj hval hva) hocc
  · intro x hx hvx
    exact SpecRimReachable.rim x hvx (seedQueue_rim hx) (seedQueue_not_occ hx)
  · intro x hx
    exact absurd hx (Finset.not_mem_empty x)

lemma reachable_run (d : Detector) (occ : Finset (ℤ × ℤ)) :
    (∀ x ∈ seedQueue d occ, x ∈ reachableFromBoundary d occ) ∧
    (∀ x ∈ reachableFromBoundary d occ, ∀ dir ∈ directions,
      isValid d (x.1 + dir.1, x.2 + dir.2) → (x.1 + dir.1, x.2 + dir.2) ∉ occ →
      (x.1 + dir.1, x.2 + dir.2) ∈ reachableFromBoundary d occ) := by
  obtain ⟨h1, -, h3⟩ := bfsAux_run d occ (bfsFuel d occ) (bfsStart d occ) ∅
    (bfsStart_measure d occ)
    (fun x hx => absurd hx (Finset.not_mem_empty x))
    (fun x hx => Or.inr (List.mem_toFinset.1 hx))
  exact ⟨h1, h3⟩

lemma reachable_of_spec {d : Detector} {occ : Finset (ℤ × ℤ)} {c : ℤ × ℤ}
    (h : SpecRimReachable d occ c) : c ∈ reachableFromBoundary d occ := by
  induction h with
  | rim c hv hr ho => exact (reachable_run d occ).1 c (mem_seedQueue_of_rim hv hr ho)
  | step a n ha hadj hv ho ih =>
      obtain ⟨dir, hdir, rfl⟩ := hadj
      exact (reachable_run d occ).2 a ih dir hdir hv ho

lemma mem_reachable_iff {d : Detector} {occ : Finset (ℤ × ℤ)} {c : ℤ × ℤ}
    (hv : isValid d c) :
    c ∈ reachableFromBoundary d occ ↔ SpecRimReachable d occ c :=
  ⟨fun h => spec_of_reachable h hv, reachable_of_spec⟩

lemma rim_occ_or_reachable {d : Detector} {occ : Finset (ℤ × ℤ)} {c : ℤ × ℤ}
    (hv : isValid d c) (hr : isRim d c) :
    c ∈ occ ∨ c ∈ reachableFromBoundary d occ := by
  by_cases ho : c ∈ occ
  · exact Or.inl ho
  · exact Or.inr (reachable_of_spec (SpecRimReachable.rim c hv hr ho))

lemma reachable_valid {d : Detector} {occ : Finset (ℤ × ℤ)}
    (h1 : 1 ≤ d.gridWidth) (h2 : 1 ≤ d.gridHeight) :
    ∀ c ∈ reachableFromBoundary d occ, isValid d c :=
  bfsAux_inv d occ (fun x => isValid d x)
    (fun _ _ _ hval _ _ => hval) (bfsFuel d occ) (bfsStart d occ) ∅
    (fun _ hx => seedQueue_valid h1 h2 hx)
    (fun x hx => absurd hx (Finset.not_mem_empty x))

lemma SpecRimReachable.valid_not_occ {d : Detector} {occ : Finset (ℤ × ℤ)} {c : ℤ × ℤ}
    (h : SpecRimReachable d occ c) : isValid d c ∧ c ∉ occ := by
  cases h with
  | rim c hv hr ho => exact ⟨hv, ho⟩
  | step a c ha hadj hv ho => exact ⟨hv, ho⟩

lemma SpecRimReachable.anti {d : Detector} {occ1 occ2 : Finset (ℤ × ℤ)}
    (hsub : occ1 ⊆ occ2) {c : ℤ × ℤ} (h : SpecRimReachable d occ2 c) :
    SpecRimReachable d occ1 c := by
  induction h with
  | rim c hv hr ho => exact SpecRimReachable.rim c hv hr (fun hc => ho (hsub hc))
  | step a n ha hadj hv ho ih =>
      exact SpecRimReachable.step a n ih hadj hv (fun hc => ho (hsub hc))

/-! ## Enclosed cells -/

lemma mem_enclosedGridCells {d : Detector} {occ : Finset (ℤ × ℤ)} {c : ℤ × ℤ} :
    c ∈ enclosedGridCells d occ (reachableFromBoundary d occ) ↔
      isValid d c ∧ c ∉ occ ∧ ¬ SpecRimReachable d occ c := by
  unfold enclosedGridCells
  simp only [List.mem_filter, mem_rowMajorCells, decide_eq_true_eq]
  constructor
  · rintro ⟨hv, ho, hr⟩
    exact ⟨hv, ho, fun hs => hr (reachable_of_spec hs)⟩
  · rintro ⟨hv, ho, hs⟩
    exact ⟨hv, ho, fun hr => hs (spec_of_reachable hr hv)⟩

lemma enclosed_interior {d : Detector} {occ : Finset (ℤ × ℤ)} {c : ℤ × ℤ}
    (h : c ∈ enclosedGridCells d occ (reachableFromBoundary d occ)) :
    1 ≤ c.1 ∧ c.1 ≤ d.gridWidth - 2 ∧ 1 ≤ c.2 ∧ c.2 ≤ d.gridHeight - 2 := by
  obtain ⟨hv, ho, hns⟩ := mem_enclosedGridCells.1 h
  by_cases hr : isRim d c
  · exact absurd (SpecRimReachable.rim c hv hr ho) hns
  · obtain ⟨x, y⟩ := c
    unfold isValid at hv
    unfold isRim at hr
    push_neg at hr
    obtain ⟨h1, h2, h3, h4⟩ := hr
    simp only at hv h1 h2 h3 h4 ⊢
    omega

/-! ## Boundary bricks -/

lemma isBoundaryBrick_eq_true {d : Detector} {occ reach : Finset (ℤ × ℤ)} {b : ℚ × ℚ} :
    isBoundaryBrick d occ reach b = true ↔
      ∃ dir ∈ directions,
        isValid d ((worldToGrid d b).1 + dir.1, (worldToGrid d b).2 + dir.2) ∧
        ((worldToGrid d b).1 + dir.1, (worldToGrid d b).2 + dir.2) ∉ occ ∧
        ((worldToGrid d b).1 + dir.1, (worldToGrid d b).2 + dir.2) ∉ reach := by
  unfold isBoundaryBrick
  rw [List.any_eq_true]
  constructor
  · rintro ⟨dir, hdir, hd⟩
    rw [decide_eq_true_eq] at hd
    exact ⟨dir, hdir, hd⟩
  · rintro ⟨dir, hdir, hd⟩
    exact ⟨dir, hdir, by rw [decide_eq_true_eq]; exact hd⟩

lemma isBoundaryBrick_false_of_invalid {d : Detector} {occ : Finset (ℤ × ℤ)} {b : ℚ × ℚ}
    (hb : ¬ isValid d (worldToGrid d b)) :
    isBoundaryBrick d occ (reachableFromBoundary d occ) b = false := by
  by_contra h
  rw [Bool.not_eq_false, isBoundaryBrick_eq_true] at h
  obtain ⟨dir, hdir, hval, hocc, hreach⟩ := h
  have hrim := isRim_of_adjacent_invalid (adjacent_of_dir hdir) hval hb
  rcases rim_occ_or_reachable hval hrim with h | h
  · exact hocc h
  · exact hreach h

/-! ## Out-of-grid obstacles are inert -/

lemma occupiedSet_drop_invalid {d : Detector} {b : ℚ × ℚ}
    (hb : ¬ isValid d (worldToGrid d b)) (l1 l2 : List (ℚ × ℚ)) :
    occupiedSet d (l1 ++ b :: l2) = occupiedSet d (l1 ++ l2) := by
  unfold occupiedSet
  rw [List.filterMap_append, List.filterMap_append,
    List.filterMap_cons_none (by rw [if_neg hb])]

lemma detect_drop_invalid {d : Detector} {b : ℚ × ℚ}
    (hb : ¬ isValid d (worldToGrid d b)) (l1 l2 : List (ℚ × ℚ)) :
    detectEnclosures d (l1 ++ b :: l2) = detectEnclosures d (l1 ++ l2) := by
  have hocc := occupiedSet_drop_invalid hb l1 l2
  rw [detectEnclosures_def, detectEnclosures_def, hocc]
  have hfil : (l1 ++ b :: l2).filter
      (isBoundaryBrick d (occupiedSet d (l1 ++ l2))
        (reachableFromBoundary d (occupiedSet d (l1 ++ l2)))) =
      (l1 ++ l2).filter (isBoundaryBrick d (occupiedSet d (l1 ++ l2))
        (reachableFromBoundary d (occupiedSet d (l1 ++ l2)))) := by
    rw [List.filter_append, List.filter_append, List.filter_cons_of_neg]
    simp only [isBoundaryBrick_false_of_invalid hb, Bool.false_eq_true, not_false_iff]
  unfold boundaryList
  rw [hfil]

lemma not_mem_boundaryList_invalid {d : Detector} {bricks : List (ℚ × ℚ)} {b : ℚ × ℚ}
    (hb : ¬ isValid d (worldToGrid d b)) :
    b ∉ (detectEnclosures d bricks).enclosureBoundary := by
  rw [detectEnclosures_def]
  intro hmem
  dsimp only at hmem
  unfold boundaryList at hmem
  split_ifs at hmem with hcond
  · obtain ⟨-, hp⟩ := List.mem_filter.1 hmem
    rw [isBoundaryBrick_false_of_invalid hb] at hp
    cases hp
  · exact absurd hmem (List.not_mem_nil b)

/-! ## Result record helpers -/

lemma boundary_eq (d : Detector) (bricks : List (ℚ × ℚ)) :
    (detectEnclosures d bricks).enclosureBoundary =
      boundaryList d (occupiedSet d bricks)
        (reachableFromBoundary d (occupiedSet d bricks)) bricks := rfl

lemma hasEnclosure_iff {d : Detector} {bricks : List (ℚ × ℚ)} :
    (detectEnclosures d bricks).hasEnclosure = true ↔
      (detectEnclosures d bricks).enclosedCells ≠ [] := by
  rw [detectEnclosures_def]
  dsimp only
  rw [decide_eq_true_eq, List.length_pos]

lemma worldToGrid_invalid_of_outside {d : Detector} (hcs : 0 < d.cellSize) {b : ℚ × ℚ}
    (hb : ¬ (0 ≤ b.1 ∧ b.1 < (d.gridWidth : ℚ) * d.cellSize ∧
             0 ≤ b.2 ∧ b.2 < (d.gridHeight : ℚ) * d.cellSize)) :
    ¬ isValid d (worldToGrid d b) := by
  intro hv
  obtain ⟨h1, h2, h3, h4⟩ := hv
  apply hb
  unfold worldToGrid at h1 h2 h3 h4
  dsimp only at h1 h2 h3 h4
  have hcs' : d.cellSize ≠ 0 := ne_of_gt hcs
  have hx0 : (0 : ℚ) ≤ b.1 / d.cellSize := by
    have := Int.le_floor.1 h1
    exact_mod_cast this
  have hx1 : b.1 / d.cellSize < (d.gridWidth : ℚ) := Int.floor_lt.1 h2
  have hy0 : (0 : ℚ) ≤ b.2 / d.cellSize := by
    have := Int.le_floor.1 h3
    exact_mod_cast this
  have hy1 : b.2 / d.cellSize < (d.gridHeight : ℚ) := Int.floor_lt.1 h4
  refine ⟨?_, (div_lt_iff₀ hcs).1 hx1, ?_, (div_lt_iff₀ hcs).1 hy1⟩
  · have := mul_nonneg hx0 hcs.le
    rwa [div_mul_cancel₀ _ hcs'] at this
  · have := mul_nonneg hy0 hcs.le
    rwa [div_mul_cancel₀ _ hcs'] at this

/-! ## Seed queue has no duplicates on grids at least 2 x 2 -/

lemma intRange_nodup (n : ℤ) : (intRange n).Nodup :=
  List.Nodup.map (fun a b h => Int.ofNat.inj h) (List.nodup_range _)

lemma seedTopBottom_block_fst {d : Detector} {occ : Finset (ℤ × ℤ)} {x : ℤ} {a : ℤ × ℤ}
    (h : a ∈ (if (x, (0 : ℤ)) ∈ occ then [] else [(x, (0 : ℤ))]) ++
      (if (x, d.gridHeight - 1) ∈ occ then [] else [(x, d.gridHeight - 1)])) :
    a.1 = x := by
  rcases List.mem_append.1 h with h | h <;> split_ifs at h <;>
    simp only [List.mem_singleton, List.not_mem_nil] at h <;> subst h <;> rfl

lemma seedLeftRight_block_snd {d : Detector} {occ : Finset (ℤ × ℤ)} {k : ℤ} {a : ℤ × ℤ}
    (h : a ∈ (if ((0 : ℤ), k + 1) ∈ occ then [] else [((0 : ℤ), k + 1)]) ++
      (if (d.gridWidth - 1, k + 1) ∈ occ then [] else [(d.gridWidth - 1, k + 1)])) :
    a.2 = k + 1 := by
  rcases List.mem_append.1 h with h | h <;> split_ifs at h <;>
    simp only [List.mem_singleton, List.not_mem_nil] at h <;> subst h <;> rfl

lemma seedTopBottom_nodup {d : Detector} {occ : Finset (ℤ × ℤ)}
    (h2 : 2 ≤ d.gridHeight) : (seedTopBottom d occ).Nodup := by
  unfold seedTopBottom
  rw [List.nodup_flatMap]
  constructor
  · intro x hx
    have hne : ((x, (0 : ℤ)) : ℤ × ℤ) ≠ (x, d.gridHeight - 1) := by
      intro heq
      rw [Prod.mk.injEq] at heq
      omega
    split_ifs <;>
      simp only [List.nil_append, List.append_nil, List.nodup_nil,
        List.nodup_cons, List.not_mem_nil, not_false_iff, and_true,
        List.singleton_append, List.mem_singleton, List.nodup_singleton] <;>
      first
        | trivial
        | exact hne
  · refine List.Pairwise.imp ?_ (intRange_nodup d.gridWidth)
    intro a b hab
    intro z hza hzb
    have e1 := seedTopBottom_block_fst hza
    have e2 := seedTopBottom_block_fst hzb
    exact hab (e1 ▸ e2 ▸ rfl)

lemma seedLeftRight_nodup {d : Detector} {occ : Finset (ℤ × ℤ)}
    (h1 : 2 ≤ d.gridWidth) : (seedLeftRight d occ).Nodup := by
  unfold seedLeftRight
  rw [List.nodup_flatMap]
  constructor
  · intro k hk
    have hne : (((0 : ℤ), k + 1) : ℤ × ℤ) ≠ (d.gridWidth - 1, k + 1) := by
      intro heq
      rw [Prod.mk.injEq] at heq
      omega
    split_ifs <;>
      simp only [List.nil_append, List.append_nil, List.nodup_nil,
        List.nodup_cons, List.not_mem_nil, not_false_iff, and_true,
        List.singleton_append, List.mem_singleton, List.nodup_singleton] <;>
      first
        | trivial
        | exact hne
  · refine List.Pairwise.imp ?_ (intRange_nodup (d.gridHeight - 2))
    intro a b hab
    intro z hza hzb
    have e1 := seedLeftRight_block_snd hza
    have e2 := seedLeftRight_block_snd hzb
    apply hab
    have : a + 1 = b + 1 := e1 ▸ e2 ▸ rfl
    omega

lemma seedQueue_nodup {d : Detector} {occ : Finset (ℤ × ℤ)}
    (h1 : 2 ≤ d.gridWidth) (h2 : 2 ≤ d.gridHeight) : (seedQueue d occ).Nodup := by
  unfold seedQueue
  refine List.Nodup.append (seedTopBottom_nodup h2) (seedLeftRight_nodup h1) ?_
  intro a hTB hLR
  obtain ⟨-, hy, -⟩ := seedTopBottom_spec hTB
  obtain ⟨-, -, hy2, hy3⟩ := seedLeftRight_spec hLR
  rcases hy with h | h <;> omega

lemma bfsPushLog_nodup {d : Detector} {occ : Finset (ℤ × ℤ)}
    (h1 : 2 ≤ d.gridWidth) (h2 : 2 ≤ d.gridHeight) : (bfsPushLog d occ).Nodup :=
  bfsAux_nodup d occ (bfsFuel d occ) (bfsStart d occ) ∅ (seedQueue_nodup h1 h2) rfl

lemma count_le_one_of_nodup {l : List (ℤ × ℤ)} (h : l.Nodup) :
    ∀ c : ℤ × ℤ, l.count c ≤ 1 := by
  induction l with
  | nil =>
      intro c
      simp
  | cons a t ih =>
      intro c
      rw [List.nodup_cons] at h
      rw [List.count_cons]
      by_cases hca : c = a
      · subst hca
        have hz : t.count c = 0 := List.count_eq_zero.2 h.1
        simp [hz]
      · have hle : t.count c ≤ 1 := ih h.2 c
        have hne : (a == c) = false := by
          rw [beq_eq_false_iff_ne]
          exact fun h2 => hca h2.symm
        rw [hne]
        simp [hle]

lemma mem_seedQueue_iff {d : Detector} {occ : Finset (ℤ × ℤ)} {c : ℤ × ℤ}
    (h1 : 1 ≤ d.gridWidth) (h2 : 1 ≤ d.gridHeight) :
    c ∈ seedQueue d occ ↔ (isValid d c ∧ isRim d c ∧ c ∉ occ) := by
  constructor
  · intro h
    exact ⟨seedQueue_valid h1 h2 h, seedQueue_rim h, seedQueue_not_occ h⟩
  · rintro ⟨hv, hr, ho⟩
    exact mem_seedQueue_of_rim hv hr ho

/-! ## The claims -/

/-- Claim C1: for every detector and input list, a grid cell is classified
enclosed exactly when it is in bounds, not occupied by any in-bounds mapped
obstacle, and not reachable from the outer rim through unoccupied in-bounds
cells by 4-directional steps (the specification-level reachability predicate
SpecRimReachable); enclosedCells is exactly the list of cell centers of those
cells in row-major order, and hasEnclosure holds exactly when that list is
nonempty. -/
theorem claim_C1 (d : Detector) (bricks : List (ℚ × ℚ)) :
    (∀ c : ℤ × ℤ, c ∈ occupiedSet d bricks ↔
      (isValid d c ∧ ∃ b ∈ bricks, worldToGrid d b = c)) ∧
    (∀ c : ℤ × ℤ,
      c ∈ enclosedGridCells d (occupiedSet d bricks)
          (reachableFromBoundary d (occupiedSet d bricks)) ↔
      (isValid d c ∧ c ∉ occupiedSet d bricks ∧
        ¬ SpecRimReachable d (occupiedSet d bricks) c)) ∧
    (detectEnclosures d bricks).enclosedCells =
      (enclosedGridCells d (occupiedSet d bricks)
        (reachableFromBoundary d (occupiedSet d bricks))).map (gridToWorld d) ∧
    List.Sublist (enclosedGridCells d (occupiedSet d bricks)
        (reachableFromBoundary d (occupiedSet d bricks))) (rowMajorCells d) ∧
    (∀ g : ℤ × ℤ, gridToWorld d g =
      ((g.1 : ℚ) * d.cellSize + d.cellSize / 2,
       (g.2 : ℚ) * d.cellSize + d.cellSize / 2)) ∧
    ((detectEnclosures d bricks).hasEnclosure = true ↔
      (detectEnclosures d bricks).enclosedCells ≠ []) := by
  refine ⟨fun c => mem_occupiedSet, fun c => mem_enclosedGridCells, rfl, ?_,
    fun g => rfl, hasEnclosure_iff⟩
  exact List.filter_sublist _

/-- Claim C2 counterexample: on the detector built from field width 0 (grid
0 x 3) with no obstacles, the union of the occupied, reachable and enclosed
sets is not the set of in-bounds cells: the grid has no in-bounds cells, yet
the left/right rim seeding enqueues the out-of-bounds cells (0,1) and (-1,1),
which end up in the computed reachable set. -/
theorem claim_C2_counterexample :
    occupiedSet dZero [] ∪ reachableFromBoundary dZero (occupiedSet dZero []) ∪
      (enclosedGridCells dZero (occupiedSet dZero [])
        (reachableFromBoundary dZero (occupiedSet dZero []))).toFinset ≠
      validCells dZero := by decide

/-- Claim C2 (amended: for detectors whose grid has at least one column and
one row): the occupied set, the computed reachable set, and the enclosed set
are pairwise disjoint and their union is exactly the set of in-bounds grid
cells; in particular no occupied cell is reachable or enclosed and every
unoccupied in-bounds cell is exactly one of reachable or enclosed. -/
theorem claim_C2 (d : Detector) (bricks : List (ℚ × ℚ))
    (h1 : 1 ≤ d.gridWidth) (h2 : 1 ≤ d.gridHeight) :
    Disjoint (occupiedSet d bricks) (reachableFromBoundary d (occupiedSet d bricks)) ∧
    Disjoint (occupiedSet d bricks)
      (enclosedGridCells d (occupiedSet d bricks)
        (reachableFromBoundary d (occupiedSet d bricks))).toFinset ∧
    Disjoint (reachableFromBoundary d (occupiedSet d bricks))
      (enclosedGridCells d (occupiedSet d bricks)
        (reachableFromBoundary d (occupiedSet d bricks))).toFinset ∧
    occupiedSet d bricks ∪ reachableFromBoundary d (occupiedSet d bricks) ∪
      (enclosedGridCells d (occupiedSet d bricks)
        (reachableFromBoundary d (occupiedSet d bricks))).toFinset = validCells d := by
  refine ⟨?_, ?_, ?_, ?_⟩
  · rw [Finset.disjoint_left]
    intro a ha hr
    exact reachable_not_occ hr ha
  · rw [Finset.disjoint_left]
    intro a ha he
    rw [List.mem_toFinset] at he
    exact (mem_enclosedGridCells.1 he).2.1 ha
  · rw [Finset.disjoint_left]
    intro a ha he
    rw [List.mem_toFinset] at he
    obtain ⟨hv, -, hns⟩ := mem_enclosedGridCells.1 he
    exact hns (spec_of_reachable ha hv)
  · ext c
    simp only [Finset.mem_union, List.mem_toFinset, mem_validCells]
    constructor
    · rintro ((h | h) | h)
      · exact occupiedSet_subset_valid h
      · exact reachable_valid h1 h2 c h
      · exact (mem_enclosedGridCells.1 h).1
    · intro hv
      by_cases ho : c ∈ occupiedSet d bricks
      · exact Or.inl (Or.inl ho)
      by_cases hr : c ∈ reachableFromBoundary d (occupiedSet d bricks)
      · exact Or.inl (Or.inr hr)
      · exact Or.inr (mem_enclosedGridCells.2
          ⟨hv, ho, fun hs => hr (reachable_of_spec hs)⟩)

/-- Witness for claim C2 on the concrete 3 x 3 ring scenario. -/
theorem claim_C2_witness :
    Disjoint (occupiedSet dRing ringBricks)
      (reachableFromBoundary dRing (occupiedSet dRing ringBricks)) ∧
    Disjoint (occupiedSet dRing ringBricks)
      (enclosedGridCells dRing (occupiedSet dRing ringBricks)
        (reachableFromBoundary dRing (occupiedSet dRing ringBricks))).toFinset ∧
    Disjoint (reachableFromBoundary dRing (occupiedSet dRing ringBricks))
      (enclosedGridCells dRing (occupiedSet dRing ringBricks)
        (reachableFromBoundary dRing (occupiedSet dRing ringBricks))).toFinset ∧
    occupiedSet dRing ringBricks ∪
      reachableFromBoundary dRing (occupiedSet dRing ringBricks) ∪
      (enclosedGridCells dRing (occupiedSet dRing ringBricks)
        (reachableFromBoundary dRing (occupiedSet dRing ringBricks))).toFinset =
      validCells dRing :=
  claim_C2 dRing ringBricks (by decide) (by decide)

/-- Claim C3 counterexample: on the detector over the 5/2 x 3 field with
cellSize 1 (grid 3 x 3), appending an obstacle at (13/5, 3/2) - outside
[0, 5/2) x [0, 3) in field coordinates - changes the result: it maps to the
in-grid cell (2, 1) and completes a ring, flipping hasEnclosure. -/
theorem claim_C3_counterexample :
    (¬ ((0 : ℚ) ≤ outsideBrick.1 ∧ outsideBrick.1 < 5/2 ∧
        (0 : ℚ) ≤ outsideBrick.2 ∧ outsideBrick.2 < 3)) ∧
    detectEnclosures dFrac (fracBricks ++ [outsideBrick]) ≠
      detectEnclosures dFrac fracBricks := by decide

/-- Claim C3 (amended: the tolerance zone is grid coverage, not the field
box): for detectors with positive cellSize, appending one obstacle whose
position lies outside [0, gridWidth*cellSize) x [0, gridHeight*cellSize)
yields exactly the same result as the call without it. When the field
dimensions are exact multiples of cellSize this coincides with the field
box of the original claim. -/
theorem claim_C3 (d : Detector) (hcs : 0 < d.cellSize) (bricks : List (ℚ × ℚ))
    (b : ℚ × ℚ)
    (hb : ¬ (0 ≤ b.1 ∧ b.1 < (d.gridWidth : ℚ) * d.cellSize ∧
             0 ≤ b.2 ∧ b.2 < (d.gridHeight : ℚ) * d.cellSize)) :
    detectEnclosures d (bricks ++ [b]) = detectEnclosures d bricks := by
  have hinv : ¬ isValid d (worldToGrid d b) := worldToGrid_invalid_of_outside hcs hb
  have h := detect_drop_invalid hinv bricks []
  rwa [List.append_nil] at h

/-- Witness for claim C3: an obstacle at x = 7 beyond the grid coverage of
dFrac is inert. -/
theorem claim_C3_witness :
    detectEnclosures dFrac (fracBricks ++ [((7 : ℚ), (1 : ℚ))]) =
      detectEnclosures dFrac fracBricks :=
  claim_C3 dFrac (by decide) fracBricks (7, 1) (by decide)

/-- Claim C4: an obstacle whose mapped grid coordinate is out of bounds has
zero effect: removing it from anywhere in the input list leaves the whole
result unchanged, it occupies no cell, and its position never appears in
enclosureBoundary even though the boundary loop iterates over all original
input positions. -/
theorem claim_C4 (d : Detector) (l1 l2 : List (ℚ × ℚ)) (b : ℚ × ℚ)
    (hb : ¬ isValid d (worldToGrid d b)) :
    detectEnclosures d (l1 ++ b :: l2) = detectEnclosures d (l1 ++ l2) ∧
    occupiedSet d (l1 ++ b :: l2) = occupiedSet d (l1 ++ l2) ∧
    b ∉ (detectEnclosures d (l1 ++ b :: l2)).enclosureBoundary :=
  ⟨detect_drop_invalid hb l1 l2, occupiedSet_drop_invalid hb l1 l2,
   not_mem_boundaryList_invalid hb⟩

/-- Witness for claim C4: an obstacle at (-1, 3), mapping to grid cell
(-1, 1) of the 3 x 3 detector, is inert in the ring scenario. -/
theorem claim_C4_witness :
    detectEnclosures dRing (ringBricks ++ ((-1 : ℚ), (3 : ℚ)) :: []) =
      detectEnclosures dRing (ringBricks ++ []) ∧
    occupiedSet dRing (ringBricks ++ ((-1 : ℚ), (3 : ℚ)) :: []) =
      occupiedSet dRing (ringBricks ++ []) ∧
    ((-1 : ℚ), (3 : ℚ)) ∉
      (detectEnclosures dRing (ringBricks ++ ((-1 : ℚ), (3 : ℚ)) :: [])).enclosureBoundary :=
  claim_C4 dRing ringBricks [] (-1, 3) (by decide)

/-- Claim C5: for a brick of the input list, when hasEnclosure is true the
brick appears in enclosureBoundary exactly when one of the four orthogonal
neighbors of its mapped cell is in-bounds, unoccupied and not reachable;
every boundary brick has a 4-neighbor whose center is listed in
enclosedCells; and when hasEnclosure is false the boundary list is empty. -/
theorem claim_C5 (d : Detector) (bricks : List (ℚ × ℚ)) (b : ℚ × ℚ) (hb : b ∈ bricks) :
    ((detectEnclosures d bricks).hasEnclosure = true →
      (b ∈ (detectEnclosures d bricks).enclosureBoundary ↔
        ∃ dir ∈ directions,
          isValid d ((worldToGrid d b).1 + dir.1, (worldToGrid d b).2 + dir.2) ∧
          ((worldToGrid d b).1 + dir.1, (worldToGrid d b).2 + dir.2) ∉
            occupiedSet d bricks ∧
          ((worldToGrid d b).1 + dir.1, (worldToGrid d b).2 + dir.2) ∉
            reachableFromBoundary d (occupiedSet d bricks))) ∧
    (b ∈ (detectEnclosures d bricks).enclosureBoundary →
      ∃ n : ℤ × ℤ, adjacent (worldToGrid d b) n ∧
        gridToWorld d n ∈ (detectEnclosures d bricks).enclosedCells) ∧
    ((detectEnclosures d bricks).hasEnclosure = false →
      (detectEnclosures d bricks).enclosureBoundary = []) := by
  have hhe : (detectEnclosures d bricks).hasEnclosure =
      decide (0 < (enclosedWorldCells d (occupiedSet d bricks)
        (reachableFromBoundary d (occupiedSet d bricks))).length) := rfl
  refine ⟨?_, ?_, ?_⟩
  · intro htrue
    have hlen : 0 < (enclosedWorldCells d (occupiedSet d bricks)
        (reachableFromBoundary d (occupiedSet d bricks))).length := by
      rw [hhe, decide_eq_true_eq] at htrue
      exact htrue
    rw [boundary_eq]
    unfold boundaryList
    rw [if_pos hlen, List.mem_filter, isBoundaryBrick_eq_true]
    constructor
    · rintro ⟨-, h⟩
      exact h
    · intro h
      exact ⟨hb, h⟩
  · intro hmem
    rw [boundary_eq] at hmem
    unfold boundaryList at hmem
    split_ifs at hmem with hlen
    · obtain ⟨-, hp⟩ := List.mem_filter.1 hmem
      rw [isBoundaryBrick_eq_true] at hp
      obtain ⟨dir, hdir, hval, hocc, hreach⟩ := hp
      refine ⟨((worldToGrid d b).1 + dir.1, (worldToGrid d b).2 + dir.2),
        adjacent_of_dir hdir, ?_⟩
      have henc : ((worldToGrid d b).1 + dir.1, (worldToGrid d b).2 + dir.2) ∈
          enclosedGridCells d (occupiedSet d bricks)
            (reachableFromBoundary d (occupiedSet d bricks)) :=
        mem_enclosedGridCells.2 ⟨hval, hocc, fun hs => hreach (reachable_of_spec hs)⟩
      exact List.mem_map_of_mem _ henc
    · exact absurd hmem (List.not_mem_nil b)
  · intro hfalse
    have hlen : ¬ 0 < (enclosedWorldCells d (occupiedSet d bricks)
        (reachableFromBoundary d (occupiedSet d bricks))).length := by
      rw [hhe, decide_eq_false_iff_not] at hfalse
      exact hfalse
    rw [boundary_eq]
    unfold boundaryList
    rw [if_neg hlen]

/-- Witness for claim C5: the ring brick at (3, 1) is reported in the
boundary and indeed has a 4-neighbor whose center (3, 3) is an enclosed
cell. -/
theorem claim_C5_witness :
    ∃ n : ℤ × ℤ, adjacent (worldToGrid dRing ((3 : ℚ), (1 : ℚ))) n ∧
      gridToWorld dRing n ∈ (detectEnclosures dRing ringBricks).enclosedCells :=
  (claim_C5 dRing ringBricks (3, 1) (by decide)).2.1 (by decide)

/-- Claim C6 counterexample: two input entries (3, 1) and (3, 1/2) both map
to grid cell (1, 0), and both appear in enclosureBoundary - the boundary is
not deduplicated by underlying grid cell. -/
theorem claim_C6_counterexample :
    worldToGrid dRing ((3 : ℚ), (1 : ℚ)) = worldToGrid dRing ((3 : ℚ), (1/2 : ℚ)) ∧
    ((3 : ℚ), (1 : ℚ)) ∈ (detectEnclosures dRing ringBricks9).enclosureBoundary ∧
    ((3 : ℚ), (1/2 : ℚ)) ∈ (detectEnclosures dRing ringBricks9).enclosureBoundary := by
  decide

/-- Claim C6 (amended): enclosureBoundary is a sublist of the input, so each
input entry contributes at most one boundary entry regardless of how many
enclosed neighbors it has; but there is no cross-entry deduplication:
whether an entry appears depends only on its mapped grid cell, so entries
mapping to the same cell either all appear or none do. -/
theorem claim_C6 (d : Detector) (bricks : List (ℚ × ℚ)) :
    List.Sublist (detectEnclosures d bricks).enclosureBoundary bricks ∧
    (∀ b : ℚ × ℚ,
      (detectEnclosures d bricks).enclosureBoundary.count b ≤ bricks.count b) ∧
    (∀ b1 b2 : ℚ × ℚ, b1 ∈ bricks → b2 ∈ bricks →
      worldToGrid d b1 = worldToGrid d b2 →
      (b1 ∈ (detectEnclosures d bricks).enclosureBoundary ↔
       b2 ∈ (detectEnclosures d bricks).enclosureBoundary)) := by
  have hsub : List.Sublist (detectEnclosures d bricks).enclosureBoundary bricks := by
    rw [boundary_eq]
    unfold boundaryList
    split_ifs
    · exact List.filter_sublist _
    · exact List.nil_sublist _
  refine ⟨hsub, fun b => List.Sublist.count_le hsub b, ?_⟩
  intro b1 b2 h1 h2 hg
  have hbb : isBoundaryBrick d (occupiedSet d bricks)
      (reachableFromBoundary d (occupiedSet d bricks)) b1 =
      isBoundaryBrick d (occupiedSet d bricks)
        (reachableFromBoundary d (occupiedSet d bricks)) b2 := by
    unfold isBoundaryBrick
    rw [hg]
  rw [boundary_eq]
  unfold boundaryList
  split_ifs
  · rw [List.mem_filter, List.mem_filter, hbb]
    constructor
    · rintro ⟨-, hp⟩
      exact ⟨h2, hp⟩
    · rintro ⟨-, hp⟩
      exact ⟨h1, hp⟩
  · exact ⟨fun h => absurd h (List.not_mem_nil b1), fun h => absurd h (List.not_mem_nil b2)⟩

/-- Witness for claim C6 on the nine-brick scenario: the two entries in grid
cell (1, 0) appear in the boundary in lockstep. -/
theorem claim_C6_witness :
    ((3 : ℚ), (1 : ℚ)) ∈ (detectEnclosures dRing ringBricks9).enclosureBoundary ↔
    ((3 : ℚ), (1/2 : ℚ)) ∈ (detectEnclosures dRing ringBricks9).enclosureBoundary :=
  (claim_C6 dRing ringBricks9).2.2 (3, 1) (3, 1/2) (by decide) (by decide) (by decide)

/-- Claim C7: if every position of S1 occurs in S2, every cell enclosed
under S1 is enclosed or occupied under S2 - adding obstacles never makes an
enclosed cell reachable. -/
theorem claim_C7 (d : Detector) (S1 S2 : List (ℚ × ℚ)) (hsub : ∀ b ∈ S1, b ∈ S2)
    (c : ℤ × ℤ)
    (hc : c ∈ enclosedGridCells d (occupiedSet d S1)
      (reachableFromBoundary d (occupiedSet d S1))) :
    c ∈ enclosedGridCells d (occupiedSet d S2)
      (reachableFromBoundary d (occupiedSet d S2)) ∨
    c ∈ occupiedSet d S2 := by
  obtain ⟨hv, ho1, hns1⟩ := mem_enclosedGridCells.1 hc
  by_cases ho2 : c ∈ occupiedSet d S2
  · exact Or.inr ho2
  · refine Or.inl (mem_enclosedGridCells.2 ⟨hv, ho2, fun hs2 => ?_⟩)
    exact hns1 (SpecRimReachable.anti (occupiedSet_mono hsub) hs2)

/-- Witness for claim C7: the cell (1, 1), enclosed under the eight-brick
ring, stays enclosed or becomes occupied under the nine-brick superset. -/
theorem claim_C7_witness :
    ((1 : ℤ), (1 : ℤ)) ∈ enclosedGridCells dRing (occupiedSet dRing ringBricks9)
      (reachableFromBoundary dRing (occupiedSet dRing ringBricks9)) ∨
    ((1 : ℤ), (1 : ℤ)) ∈ occupiedSet dRing ringBricks9 :=
  claim_C7 dRing ringBricks ringBricks9 (by decide) (1, 1) (by decide)

/-- Claim C8: detectEnclosures is total - the BFS loop drains its queue
within the supplied fuel, so running the detector with any amount of extra
fuel returns the identical fully-formed result; together with the purely
structural rest of the pipeline this shows the embedded detector terminates
on every finite input list, including the empty one. -/
theorem claim_C8 (d : Detector) (bricks : List (ℚ × ℚ)) (k : ℕ) :
    detectCore d bricks (bfsFuel d (occupiedSet d bricks) + k) =
      detectEnclosures d bricks := by
  induction k with
  | zero => rfl
  | succ k ih =>
      rw [← ih]
      have hr : reachableFuel d (occupiedSet d bricks)
          (bfsFuel d (occupiedSet d bricks) + k + 1) =
          reachableFuel d (occupiedSet d bricks)
            (bfsFuel d (occupiedSet d bricks) + k) := by
        unfold reachableFuel bfsResult
        rw [bfsAux_stable d (occupiedSet d bricks) _ _ _
          (le_trans (bfsStart_measure d (occupiedSet d bricks)) (Nat.le_add_right _ k))]
      rw [show bfsFuel d (occupiedSet d bricks) + (k + 1) =
        bfsFuel d (occupiedSet d bricks) + k + 1 from rfl]
      unfold detectCore
      rw [hr]

/-- Claim C9 counterexample: on the 2 x 1 grid with no obstacles, the
top-edge and bottom-edge seeding loops coincide, so the rim cell (0, 0) is
pushed onto the work queue twice. -/
theorem claim_C9_counterexample :
    (bfsPushLog dRow (occupiedSet dRow [])).count ((0 : ℤ), (0 : ℤ)) = 2 := by decide

/-- Claim C9 (amended: for grids with at least two columns and two rows):
the seed queue holds exactly the unoccupied in-bounds rim cells, corners
included, and over the whole call - seeding plus BFS - every grid cell is
pushed onto the work queue at most once. On degenerate grids (gridWidth = 1
or gridHeight = 1) rim cells are seeded twice. -/
theorem claim_C9 (d : Detector) (bricks : List (ℚ × ℚ))
    (h1 : 2 ≤ d.gridWidth) (h2 : 2 ≤ d.gridHeight) :
    (∀ c : ℤ × ℤ, c ∈ seedQueue d (occupiedSet d bricks) ↔
      (isValid d c ∧ isRim d c ∧ c ∉ occupiedSet d bricks)) ∧
    (∀ c : ℤ × ℤ, (bfsPushLog d (occupiedSet d bricks)).count c ≤ 1) := by
  constructor
  · intro c
    exact mem_seedQueue_iff (by omega) (by omega)
  · exact count_le_one_of_nodup (bfsPushLog_nodup h1 h2)

/-- Witness for claim C9 on the empty 3 x 3 grid: the seed-queue
characterization at the corner (0, 0) and the push count of the interior
cell (1, 1). -/
theorem claim_C9_witness :
    (((0 : ℤ), (0 : ℤ)) ∈ seedQueue dRing (occupiedSet dRing []) ↔
      (isValid dRing ((0 : ℤ), (0 : ℤ)) ∧ isRim dRing ((0 : ℤ), (0 : ℤ)) ∧
       ((0 : ℤ), (0 : ℤ)) ∉ occupiedSet dRing [])) ∧
    (bfsPushLog dRing (occupiedSet dRing [])).count ((1 : ℤ), (1 : ℤ)) ≤ 1 :=
  ⟨(claim_C9 dRing [] (by decide) (by decide)).1 (0, 0),
   (claim_C9 dRing [] (by decide) (by decide)).2 (1, 1)⟩

/-- Claim C10: every reported enclosed cell is strictly interior to the
grid, and any detector whose grid is at most two cells wide or tall returns
hasEnclosure = false with empty lists on every input. -/
theorem claim_C10 (d : Detector) (bricks : List (ℚ × ℚ)) :
    (∀ c ∈ enclosedGridCells d (occupiedSet d bricks)
        (reachableFromBoundary d (occupiedSet d bricks)),
      1 ≤ c.1 ∧ c.1 ≤ d.gridWidth - 2 ∧ 1 ≤ c.2 ∧ c.2 ≤ d.gridHeight - 2) ∧
    (d.gridWidth ≤ 2 ∨ d.gridHeight ≤ 2 →
      detectEnclosures d bricks = ⟨false, [], []⟩) := by
  constructor
  · intro c hc
    exact enclosed_interior hc
  · intro hdeg
    have hnil : enclosedGridCells d (occupiedSet d bricks)
        (reachableFromBoundary d (occupiedSet d bricks)) = [] := by
      cases hl : enclosedGridCells d (occupiedSet d bricks)
          (reachableFromBoundary d (occupiedSet d bricks)) with
      | nil => rfl
      | cons c t =>
          exfalso
          have hmem : c ∈ enclosedGridCells d (occupiedSet d bricks)
              (reachableFromBoundary d (occupiedSet d bricks)) := by
            rw [hl]
            exact List.mem_cons_self c t
          obtain ⟨a1, a2, a3, a4⟩ := enclosed_interior hmem
          rcases hdeg with h | h <;> omega
    have hcells : enclosedWorldCells d (occupiedSet d bricks)
        (reachableFromBoundary d (occupiedSet d bricks)) = [] := by
      unfold enclosedWorldCells
      rw [hnil]
      rfl
    rw [detectEnclosures_def]
    unfold boundaryList
    rw [hcells]
    have hno : ¬ 0 < ([] : List (ℚ × ℚ)).length := by simp
    have hdec : decide (0 < ([] : List (ℚ × ℚ)).length) = false := by
      rw [decide_eq_false_iff_not]
      exact hno
    rw [if_neg hno, hdec]

/-- Witness for claim C10: the unique enclosed cell of the ring scenario is
interior, and the 2 x 5 detector yields the empty result on the same
bricks. -/
theorem claim_C10_witness :
    (1 ≤ (1 : ℤ) ∧ (1 : ℤ) ≤ dRing.gridWidth - 2 ∧
     1 ≤ (1 : ℤ) ∧ (1 : ℤ) ≤ dRing.gridHeight - 2) ∧
    detectEnclosures dThin ringBricks = ⟨false, [], []⟩ :=
  ⟨(claim_C10 dRing ringBricks).1 (1, 1) (by decide),
   (claim_C10 dThin ringBricks).2 (by decide)⟩
